import Mathlib

/-!
Verification of the `vault-plugins` repository, centred on the
`secret/approved-secrets` engine: the storage accessor
(`atomic_storage_accessor.go`), the role registry (`path_roles.go`), the
lease hooks (`path_soll_ist.go`), the periodic token renewer
(`backend.go`) and the approval/issuance protocol described by the
engine's README.

Go strings are embedded as lists of characters, Go `time.Duration`
values (always whole seconds here) as integers counting seconds, and the
host's durable key-value store (`logical.Storage`) as an association
list from keys to values, looked up front-to-back so that a freshly put
entry shadows an older one.
-/

/-- Go strings, embedded as lists of characters. -/
abbrev Str := List Char

/-- Embedding of Go `strings.ToLower` (character-wise lowering). -/
def stringsToLower (s : Str) : Str := s.map Char.toLower

/-! ## The host's durable key-value store (`logical.Storage`) -/

/-- The host's key-value store: an association list keyed by full path
strings.  `storeGet` returns the most recently put value. -/
abbrev Store (α : Type) := List (Str × α)

/-- Embedding of `logical.Storage.Get`: first binding of the key wins. -/
def storeGet {α : Type} (k : Str) : Store α → Option α
  | [] => none
  | (k', v) :: rest => if k = k' then some v else storeGet k rest

/-- Embedding of `logical.Storage.Put`: the new binding shadows any older
binding of the same key. -/
def storePut {α : Type} (k : Str) (v : α) (st : Store α) : Store α :=
  (k, v) :: st

/-- Embedding of `logical.Storage.Delete`: removes every binding of the
key; deleting an absent key succeeds and leaves the store unchanged. -/
def storeDelete {α : Type} (k : Str) (st : Store α) : Store α :=
  st.filter (fun p => decide (p.1 ≠ k))

/-- One item reported by `logical.Storage.List` for a stored key lying
under the listed prefix: the first path segment of the remainder, with a
trailing `/` when the key nests deeper (as Vault's storage reports
subtrees). -/
def childSegment (rest : Str) : Str :=
  rest.takeWhile (fun c => decide (c ≠ '/')) ++
    (if rest.dropWhile (fun c => decide (c ≠ '/')) = [] then [] else ['/'])

/-- Embedding of `logical.Storage.List`: the child segments of every
stored key that extends the prefix. -/
def storeList {α : Type} (pfx : Str) (st : Store α) : List Str :=
  st.filterMap (fun p =>
    if pfx <+: p.1 then some (childSegment (p.1.drop pfx.length)) else none)

/-! ## `atomic_storage_accessor.go` — key construction

Every accessor operation builds its key the same way: starting from the
accessor's namespace path it folds `path.Join(key, strings.ToLower(subkey))`
over the subkeys.  `path.Join` drops empty elements, so an empty subkey
leaves the key unchanged (this is how `list(ctx, s, "")` addresses the
namespace root). -/

/-- One step of the accessor's key construction:
`key = path.Join(key, strings.ToLower(subkey))`. -/
def joinSubkey (key subkey : Str) : Str :=
  if stringsToLower subkey = [] then key else key ++ '/' :: stringsToLower subkey

/-- The full key an accessor operation addresses: its namespace path
followed by the lowered subkeys. -/
def accessorKey (path : Str) (subkeys : List Str) : Str :=
  subkeys.foldl joinSubkey path

/-- Embedding of `atomicStorageAccessor.get`. -/
def accessorGet {α : Type} (path : Str) (st : Store α) (subkeys : List Str) : Option α :=
  storeGet (accessorKey path subkeys) st

/-- Embedding of `atomicStorageAccessor.put`. -/
def accessorPut {α : Type} (path : Str) (st : Store α) (v : α) (subkeys : List Str) : Store α :=
  storePut (accessorKey path subkeys) v st

/-- Embedding of `atomicStorageAccessor.list` (which lists under
`key + "/"`). -/
def accessorList {α : Type} (path : Str) (st : Store α) (subkeys : List Str) : List Str :=
  storeList (accessorKey path subkeys ++ ['/']) st

/-- Embedding of `atomicStorageAccessor.delete`. -/
def accessorDelete {α : Type} (path : Str) (st : Store α) (subkeys : List Str) : Store α :=
  storeDelete (accessorKey path subkeys) st

/-! The four namespaces created in `newBackend` (`backend.go`). -/

/-- Namespace path of `configAccessor`. -/
def configPath : Str := "config".toList

/-- Namespace path of `roleAccessor`. -/
def rolePath : Str := "role".toList

/-- Namespace path of `requestAccessor`. -/
def requestPath : Str := "request".toList

/-- Namespace path of `issueAccessor`. -/
def issuePath : Str := "issue".toList

/-! ## `path_roles.go` — the role registry of the approved-secrets engine -/

/-- The `logical.Operation` values that reach `pathRoleCreateUpdate`. -/
inductive Operation where
  | create
  | update
deriving DecidableEq

/-- Embedding of `roleStorageEntry` (`path_roles.go`).  `SecretData` is a
Go map that may be `nil` (`none`) or a possibly empty association list
(`some _`); durations are whole seconds. -/
structure roleStorageEntry where
  secretPath : Str
  secretPathMethod : Str
  secretData : Option (List (Str × Str))
  secretType : Str
  secretEnvironment : Str
  secretAWSStateRole : Str
  secretRequiredFields : List Str
  secretTTL : Int
  secretMaxTTL : Int
  exclusiveLease : Bool
  minApprovers : Int
  boundRequesterIDs : List Str
  boundRequesterRoles : List Str
  boundApproverIDs : List Str
  boundApproverRoles : List Str
  notifySlackChannels : List Str
deriving DecidableEq

/-- The zero `roleStorageEntry`, as `&roleStorageEntry{}` builds it. -/
def emptyRoleStorageEntry : roleStorageEntry where
  secretPath := []
  secretPathMethod := []
  secretData := none
  secretType := []
  secretEnvironment := []
  secretAWSStateRole := []
  secretRequiredFields := []
  secretTTL := 0
  secretMaxTTL := 0
  exclusiveLease := false
  minApprovers := 0
  boundRequesterIDs := []
  boundRequesterRoles := []
  boundApproverIDs := []
  boundApproverRoles := []
  notifySlackChannels := []

/-- The fields of one `roles/:name` write request.  A field of `Option`
type is `some v` exactly when `d.GetOk` finds the field in the raw
request data (`GetOk` reports presence, so a supplied empty map is
`some []`, distinct from an absent field, Go `nil`).  `secret_path` is
read with `d.Get`, which falls back to the zero string, and
`exclusive_lease` with `d.Get` and default `false`. -/
structure RoleFields where
  name : Str
  secretPath : Str
  secretPathMethod : Option Str
  secretData : Option (List (Str × Str))
  secretType : Option Str
  secretEnvironment : Option Str
  secretAWSStateRole : Option Str
  secretRequiredFields : Option (List Str)
  secretTTL : Option Int
  secretMaxTTL : Option Int
  exclusiveLease : Bool
  minApprovers : Option Int
  boundRequesterIDs : Option (List Str)
  boundRequesterRoles : Option (List Str)
  boundApproverIDs : Option (List Str)
  boundApproverRoles : Option (List Str)
  notifySlackChannels : Option (List Str)
deriving DecidableEq

/-- `http.MethodGet`. -/
def methodGet : Str := "GET".toList

/-- `http.MethodPost`. -/
def methodPost : Str := "POST".toList

/-- Schema default of `secret_ttl`: "8h" in seconds. -/
def defaultSecretTTL : Int := 28800

/-- Schema default of `secret_max_ttl`: "12h" in seconds. -/
def defaultSecretMaxTTL : Int := 43200

/-- `errBadSecretPathMethod`. -/
def errBadSecretPathMethod : Str := "bad secret_path_method (expected POST or GET)".toList

/-- `errBadMinApprovers`. -/
def errBadMinApprovers : Str := "bad min_approvers (must be >= 1)".toList

/-- `errBadSecretDataMethod`. -/
def errBadSecretDataMethod : Str := "bad method for secret_data (must be POST)".toList

/-- Message of the `secret_ttl` versus `secret_max_ttl` check. -/
def errSecretTTLGreater : Str := "secret_ttl should not be greater than secret_max_ttl".toList

/-- Outcome of `pathRoleCreateUpdate`: a `logical.ErrorResponse` (nothing
stored), or the stored entry together with whether the response carried
the max-TTL truncation warning. -/
inductive RoleWriteResult where
  | errorResp (msg : Str)
  | success (warning : Bool) (role : roleStorageEntry)
deriving DecidableEq

/-- Whether a `RoleWriteResult` is a `logical.ErrorResponse`. -/
def RoleWriteResult.isErr : RoleWriteResult → Bool
  | .errorResp _ => true
  | .success _ _ => false

/-- Embedding of `pathRoleCreateUpdate` (`path_roles.go`), applied to the
previously stored role (if any), the mount's maximum lease TTL
(`b.System().MaxLeaseTTL()`, in seconds) and the request fields.  It
mirrors the source's order: method check, secret-data-for-GET check,
TTL-versus-max-TTL check, max-TTL clamp, min-approvers check, then the
assembled entry. -/
def pathRoleCreateUpdate (op : Operation) (sysMaxTTL : Int)
    (old : Option roleStorageEntry) (d : RoleFields) : RoleWriteResult :=
  let base := old.getD emptyRoleStorageEntry
  let method :=
    d.secretPathMethod.getD
      (if base.secretPathMethod = [] then methodGet else base.secretPathMethod)
  if method ≠ methodPost ∧ method ≠ methodGet then .errorResp errBadSecretPathMethod
  else
    let sdata := d.secretData
    if method = methodGet ∧ sdata ≠ none then .errorResp errBadSecretDataMethod
    else
      let sttl := d.secretTTL.getD (if op = .create then defaultSecretTTL else base.secretTTL)
      let smax :=
        d.secretMaxTTL.getD (if op = .create then defaultSecretMaxTTL else base.secretMaxTTL)
      if smax > 0 ∧ sttl > smax then .errorResp errSecretTTLGreater
      else
        let warn := smax > sysMaxTTL
        let smax2 := if smax > sysMaxTTL then sysMaxTTL else smax
        let minApp :=
          d.minApprovers.getD (if base.minApprovers = 0 then 1 else base.minApprovers)
        if minApp < 1 then .errorResp errBadMinApprovers
        else
          .success warn
            { secretPath := d.secretPath
              secretPathMethod := method
              secretData := sdata
              secretType := d.secretType.getD base.secretType
              secretEnvironment := d.secretEnvironment.getD base.secretEnvironment
              secretAWSStateRole := d.secretAWSStateRole.getD base.secretAWSStateRole
              secretRequiredFields := d.secretRequiredFields.getD base.secretRequiredFields
              secretTTL := sttl
              secretMaxTTL := smax2
              exclusiveLease := d.exclusiveLease
              minApprovers := minApp
              boundRequesterIDs := d.boundRequesterIDs.getD base.boundRequesterIDs
              boundRequesterRoles := d.boundRequesterRoles.getD base.boundRequesterRoles
              boundApproverIDs := d.boundApproverIDs.getD base.boundApproverIDs
              boundApproverRoles := d.boundApproverRoles.getD base.boundApproverRoles
              notifySlackChannels := d.notifySlackChannels.getD base.notifySlackChannels }

/-- The `secret_path_method` value the write operates with (the supplied
field, the previously stored value, or the schema default GET). -/
def effSecretPathMethod (old : Option roleStorageEntry) (d : RoleFields) : Str :=
  d.secretPathMethod.getD
    (if (old.getD emptyRoleStorageEntry).secretPathMethod = [] then methodGet
     else (old.getD emptyRoleStorageEntry).secretPathMethod)

/-- The `secret_ttl` value the write operates with. -/
def effSecretTTL (op : Operation) (old : Option roleStorageEntry) (d : RoleFields) : Int :=
  d.secretTTL.getD
    (if op = .create then defaultSecretTTL else (old.getD emptyRoleStorageEntry).secretTTL)

/-- The `secret_max_ttl` value the write operates with, before the clamp
against the mount ceiling. -/
def effSecretMaxTTL (op : Operation) (old : Option roleStorageEntry) (d : RoleFields) : Int :=
  d.secretMaxTTL.getD
    (if op = .create then defaultSecretMaxTTL
     else (old.getD emptyRoleStorageEntry).secretMaxTTL)

/-- The `min_approvers` value the write operates with. -/
def effMinApprovers (old : Option roleStorageEntry) (d : RoleFields) : Int :=
  d.minApprovers.getD
    (if (old.getD emptyRoleStorageEntry).minApprovers = 0 then 1
     else (old.getD emptyRoleStorageEntry).minApprovers)

/-- The rejection condition exactly as the specification claims it:
`min_approvers < 1`, a method other than GET or POST, a **non-empty**
`secret_data` with method GET, or `secret_ttl > secret_max_ttl > 0`. -/
def claimedRoleRejected (op : Operation) (old : Option roleStorageEntry) (d : RoleFields) : Prop :=
  effMinApprovers old d < 1 ∨
  (effSecretPathMethod old d ≠ methodGet ∧ effSecretPathMethod old d ≠ methodPost) ∨
  (effSecretPathMethod old d = methodGet ∧ d.secretData ≠ none ∧ d.secretData ≠ some []) ∨
  (effSecretMaxTTL op old d > 0 ∧ effSecretTTL op old d > effSecretMaxTTL op old d)

/-- The rejection condition the code actually enforces: as claimed, but
any **supplied** `secret_data` (a non-nil Go map, even empty) is
rejected with method GET. -/
def roleWriteRejected (op : Operation) (old : Option roleStorageEntry) (d : RoleFields) : Prop :=
  effMinApprovers old d < 1 ∨
  (effSecretPathMethod old d ≠ methodGet ∧ effSecretPathMethod old d ≠ methodPost) ∨
  (effSecretPathMethod old d = methodGet ∧ d.secretData ≠ none) ∨
  (effSecretMaxTTL op old d > 0 ∧ effSecretTTL op old d > effSecretMaxTTL op old d)

/-- The full handler over the shared store: load the role through
`roleAccessor.get` (`b.role`), run `pathRoleCreateUpdate`, and on success
store the entry through `roleAccessor.put`. -/
def pathRoleCreateUpdateStore (op : Operation) (sysMaxTTL : Int)
    (st : Store roleStorageEntry) (d : RoleFields) :
    Store roleStorageEntry × RoleWriteResult :=
  let old := accessorGet rolePath st [d.name]
  match pathRoleCreateUpdate op sysMaxTTL old d with
  | .errorResp m => (st, .errorResp m)
  | .success w r => (accessorPut rolePath st r [d.name], .success w r)

/-- A concrete `roles/:name` write: method defaulted (GET), `secret_data`
supplied as an **empty** map, everything else absent. -/
def emptyMapGetFields : RoleFields where
  name := "r1".toList
  secretPath := "p".toList
  secretPathMethod := none
  secretData := some []
  secretType := none
  secretEnvironment := none
  secretAWSStateRole := none
  secretRequiredFields := none
  secretTTL := none
  secretMaxTTL := none
  exclusiveLease := false
  minApprovers := none
  boundRequesterIDs := none
  boundRequesterRoles := none
  boundApproverIDs := none
  boundApproverRoles := none
  notifySlackChannels := none

/-- Embedding of `pathRoleDelete` (`path_roles.go`): delete the role's
entry through `roleAccessor.delete`, over the shared store. -/
def pathRoleDeleteStore {α : Type} (st : Store α) (name : Str) : Store α :=
  accessorDelete rolePath st [name]

/-! ## `path_config.go` and `backend.go` — configuration and the periodic
token renewer -/

/-- Embedding of `configStorageEntry` (`path_config.go`). -/
structure configStorageEntry where
  approvalTTL : Int
  vaultAddr : Str
  vaultToken : Str
  vaultPolicies : List Str
  identityTemplate : Str
  slackWebhookURL : Str
deriving DecidableEq

/-- Outcome of `backend.config` inside the periodic function: a storage
or decoding error, no stored config, or the stored config. -/
inductive ConfigLoad where
  | loadError
  | absent
  | present (cfg : configStorageEntry)
deriving DecidableEq

/-- Outcome of `newVaultClient` inside the periodic function. -/
inductive ClientResult where
  | clientError
  | clientOk
deriving DecidableEq

/-- Outcome of the `/auth/token/renew-self` write inside the periodic
function. -/
inductive RenewCall where
  | renewError
  | renewOk
deriving DecidableEq

/-- Embedding of the closure built by `newVaultTokenRenewer`
(`backend.go`): the backend's `PeriodicFunc`, applied to the outcome of
each of its three steps.  `none` is the Go `nil` error; a `some` would be
a propagated error. -/
def newVaultTokenRenewer (c : ConfigLoad) (cl : ClientResult) (rn : RenewCall) : Option Str :=
  match c with
  | .loadError => none
  | .absent => none
  | .present _ =>
      match cl with
      | .clientError => none
      | .clientOk =>
          match rn with
          | .renewError => none
          | .renewOk => none

/-! ## `path_soll_ist.go` — lease hooks of the issued approved secret -/

/-- A `framework.Secret` renew/revoke handler's outcome: a
`logical.ErrorResponse`, or plain success. -/
inductive HookResult where
  | errorResp (msg : Str)
  | ok
deriving DecidableEq

/-- Message of `secretApprovedSecretIssueRenew`. -/
def cannotRenewMsg : Str :=
  "approved_secret_issue cannot be renewed - request again instead".toList

/-- Embedding of `secretApprovedSecretIssueRenew`: whatever the lease
state, it answers with the fixed error response (and a Go `nil` error). -/
def secretApprovedSecretIssueRenew : HookResult :=
  .errorResp cannotRenewMsg

/-- The host's lease bookkeeping around a `Renew` callback, abstracted to
the lease TTL: only a non-error response installs the extended TTL (the
host is an external collaborator; an error response leaves the lease as
it was). -/
def leaseAfterRenew (current extended : Int) (r : HookResult) : Int :=
  match r with
  | .errorResp _ => current
  | .ok => extended

/-- The `InternalData` of an issued approved secret's lease: the role
name and nonce recorded at issuance. -/
structure IssueInternalData where
  name : Str
  nonce : Str
deriving DecidableEq

/-- Message of the missing-role guard of the revoke hook. -/
def missingRoleMsg : Str := "missing role".toList

/-- Message of the missing-nonce guard of the revoke hook. -/
def missingNonceMsg : Str := "missing nonce".toList

/-- Embedding of `secretApprovedSecretIssueRevoke` (`path_soll_ist.go`):
guard the internal data, then delete the Issue record through
`issueAccessor.delete` with subkeys role name and nonce.  The store
delete itself cannot fail in this embedding, matching a healthy host
store. -/
def secretApprovedSecretIssueRevoke {α : Type} (st : Store α) (d : IssueInternalData) :
    Store α × HookResult :=
  if d.name = [] then (st, .errorResp missingRoleMsg)
  else if d.nonce = [] then (st, .errorResp missingNonceMsg)
  else (accessorDelete issuePath st [d.name, d.nonce], .ok)

/-! ## The approval workflow (request / approve / issue)

`backend.go` wires `pathRequest`, `pathApprove` and `pathIssue` into the
backend and the engine's README documents them, but the files defining
those handlers and `requestStorageEntry` are not part of the source
tree here.  The definitions below are therefore modelled from the
specification (§4.2, §4.3 step 4, §4.4 step 2). -/

/-- Modelled from the spec: the Request record of one in-flight approval
round (`requestStorageEntry` is absent from the source tree; §3 of the
spec).  `approverIds` is the set of distinct resolved approver
identities recorded so far, `minApprovers` the threshold snapshotted
from the Role when the request was opened. -/
structure requestStorageEntry where
  nonce : Str
  requesterId : Str
  requesterRole : Str
  boundApproverIDs : List Str
  boundApproverRoles : List Str
  minApprovers : Int
  approverIds : List Str
deriving DecidableEq

/-- Modelled from the spec: §4.3 step 4 — record an approval
idempotently: re-approval by an identity already in `approver_ids`
leaves the set unchanged; a new identity is added. -/
def approveRecord (req : requestStorageEntry) (identity : Str) : requestStorageEntry :=
  if identity ∈ req.approverIds then req
  else { req with approverIds := identity :: req.approverIds }

/-- A whole sequence of approve calls, in arrival order. -/
def approveAll (req : requestStorageEntry) (identities : List Str) : requestStorageEntry :=
  identities.foldl approveRecord req

/-- Modelled from the spec: §4.4 step 2 — the issue operation's approval
gate: require `|approver_ids| ≥ min_approvers`, else fail
PermissionDenied ("insufficient approvals"). -/
inductive IssueGate where
  | permissionDenied (msg : Str)
  | ok
deriving DecidableEq

/-- Message of the failed approval gate. -/
def insufficientApprovalsMsg : Str := "insufficient approvals".toList

/-- Modelled from the spec: the approval-threshold check of `issue`. -/
def issueApprovalCheck (req : requestStorageEntry) : IssueGate :=
  if (req.approverIds.length : Int) < req.minApprovers then
    .permissionDenied insufficientApprovalsMsg
  else .ok

/-! ## The accessor's lock discipline (`atomic_storage_accessor.go`)

Each `atomicStorageAccessor` owns one `sync.RWMutex`.  `get` and `list`
hold the read lock for the duration of that one call, `put` and `delete`
the write lock; the mutex is released before the operation returns.  The
lock events of the calls into one namespace therefore form traces of the
following state machine. -/

/-- A lock event of the namespace's `sync.RWMutex`, tagged with the
component call (goroutine) performing it. -/
inductive LockEvent where
  | acqR (c : Nat)
  | relR (c : Nat)
  | acqW (c : Nat)
  | relW (c : Nat)
deriving DecidableEq

/-- The component call performing a lock event. -/
def LockEvent.caller : LockEvent → Nat
  | .acqR c => c
  | .relR c => c
  | .acqW c => c
  | .relW c => c

/-- The `sync.RWMutex` state: which calls hold the read lock, and which
call (if any) holds the write lock. -/
structure LockState where
  readers : List Nat
  writer : Option Nat
deriving DecidableEq

/-- The mutex before any call. -/
def initLock : LockState := ⟨[], none⟩

/-- One admissible step of the `sync.RWMutex`: an acquisition that would
block is not an admissible occurrence. -/
def stepLock (st : LockState) (e : LockEvent) : Option LockState :=
  match e with
  | .acqR c =>
      match st.writer with
      | none => some ⟨c :: st.readers, none⟩
      | some _ => none
  | .relR c => if c ∈ st.readers then some ⟨st.readers.erase c, st.writer⟩ else none
  | .acqW c =>
      match st.readers, st.writer with
      | [], none => some ⟨[], some c⟩
      | _, _ => none
  | .relW c => if st.writer = some c then some ⟨st.readers, none⟩ else none

/-- Run a trace of lock events from a state; `none` when some event was
not admissible. -/
def execLock (st : LockState) : List LockEvent → Option LockState
  | [] => some st
  | e :: es =>
      match stepLock st e with
      | none => none
      | some st' => execLock st' es

/-- A trace the mutex can actually exhibit from its initial state. -/
def validLock (t : List LockEvent) : Bool :=
  (execLock initLock t).isSome

/-- The lock events of one `atomicStorageAccessor.get` by call `c`. -/
def getEvents (c : Nat) : List LockEvent := [.acqR c, .relR c]

/-- The lock events of one `atomicStorageAccessor.put` by call `c`. -/
def putEvents (c : Nat) : List LockEvent := [.acqW c, .relW c]

/-- The lock events of a get-modify-put sequence within one component
call: the read lock is taken and released around the get, and the write
lock taken and released around the put — nothing is held in between. -/
def getModifyPutEvents (c : Nat) : List LockEvent :=
  getEvents c ++ putEvents c

/-- All interleavings of two event sequences, by structural recursion on
a fuel large enough for both lists. -/
def interleavingsFuel : Nat → List LockEvent → List LockEvent → List (List LockEvent)
  | 0, xs, ys => [xs ++ ys]
  | _ + 1, [], ys => [ys]
  | _ + 1, x :: xs, [] => [x :: xs]
  | n + 1, x :: xs, y :: ys =>
      (interleavingsFuel n xs (y :: ys)).map (fun t => x :: t) ++
        (interleavingsFuel n (x :: xs) ys).map (fun t => y :: t)

/-- All interleavings of two event sequences (each call's own order is
preserved; the scheduler picks who goes first at every step). -/
def interleavings (a b : List LockEvent) : List (List LockEvent) :=
  interleavingsFuel (a.length + b.length) a b

/-- Whether, scanning a trace, another call's event occurs before the
next `acqW c` (the start of call `c`'s put). -/
def otherBeforeAcqW (c : Nat) : List LockEvent → Bool
  | [] => false
  | e :: es =>
      if e = LockEvent.acqW c then false
      else if e.caller ≠ c then true
      else otherBeforeAcqW c es

/-- Whether a trace lets some other call's event fall between call `c`'s
get (its `relR c`) and its subsequent put (its `acqW c`). -/
def interleavedBetween (c : Nat) : List LockEvent → Bool
  | [] => false
  | e :: es =>
      if e = LockEvent.relR c then otherBeforeAcqW c es || interleavedBetween c es
      else interleavedBetween c es

/-- The specification's claim for the accessor's lock discipline, as
stated: in every admissible interleaving of two get-modify-put calls to
the same namespace, neither call's get-to-put window is interleaved by
the other call. -/
def claimedLockDiscipline : Prop :=
  ∀ t, t ∈ interleavings (getModifyPutEvents 0) (getModifyPutEvents 1) →
    validLock t = true →
    interleavedBetween 0 t = false ∧ interleavedBetween 1 t = false

/-- A schedule of two get-modify-put calls to the same namespace in which
call 1's whole get runs between call 0's get and call 0's put. -/
def interleavedSchedule : List LockEvent :=
  [.acqR 0, .relR 0, .acqR 1, .relR 1, .acqW 0, .relW 0, .acqW 1, .relW 1]

/-! ## Concrete sample data used to evaluate the theorems -/

/-- A store holding one role entry and one request entry. -/
def sampleStore : Store Nat :=
  storePut (accessorKey requestPath ["a".toList, "n1".toList]) 2
    (storePut (accessorKey rolePath ["a".toList]) 1 [])

/-- A freshly opened request whose role snapshot requires two approvers. -/
def sampleRequest : requestStorageEntry where
  nonce := "n1".toList
  requesterId := "alice".toList
  requesterRole := "sre".toList
  boundApproverIDs := []
  boundApproverRoles := "sre".toList :: []
  minApprovers := 2
  approverIds := []

/-- Two distinct approvers, one of them approving twice. -/
def sampleApprovals : List Str := ["bob".toList, "carol".toList, "bob".toList]

/-- The same approvals arriving in another order. -/
def sampleOtherOrder : List Str := ["carol".toList, "bob".toList, "bob".toList]

/-! ## Store and accessor lemmas -/

theorem storeGet_storePut_self {α : Type} (k : Str) (v : α) (st : Store α) :
    storeGet k (storePut k v st) = some v := by
  simp [storeGet, storePut]

theorem storeGet_storeDelete_self {α : Type} (k : Str) (st : Store α) :
    storeGet k (storeDelete k st) = none := by
  induction st with
  | nil => rfl
  | cons p rest ih =>
      obtain ⟨k0, v⟩ := p
      by_cases hk0 : k0 = k
      · simpa [storeDelete, List.filter_cons, hk0] using ih
      · have hne : ¬ (k = k0) := fun e => hk0 e.symm
        simpa [storeDelete, List.filter_cons, hk0, storeGet, hne] using ih

theorem storeGet_storeDelete_ne {α : Type} (k k' : Str) (st : Store α) (h : k ≠ k') :
    storeGet k (storeDelete k' st) = storeGet k st := by
  induction st with
  | nil => rfl
  | cons p rest ih =>
      obtain ⟨k0, v⟩ := p
      by_cases hk0 : k0 = k'
      · subst hk0
        simpa [storeDelete, List.filter_cons, storeGet, h] using ih
      · by_cases hk : k = k0
        · simp [storeDelete, List.filter_cons, hk0, storeGet, hk]
        · simpa [storeDelete, List.filter_cons, hk0, storeGet, hk] using ih

theorem storeDelete_absent {α : Type} (k : Str) (st : Store α)
    (h : storeGet k st = none) : storeDelete k st = st := by
  induction st with
  | nil => rfl
  | cons p rest ih =>
      obtain ⟨k0, v⟩ := p
      by_cases hk : k = k0
      · simp [storeGet, hk] at h
      · have h2 : storeGet k rest = none := by simpa [storeGet, hk] using h
        have hne : decide (k0 ≠ k) = true := decide_eq_true (fun e => hk e.symm)
        simp only [storeDelete, List.filter_cons]
        rw [if_pos hne]
        exact congrArg (fun l => (k0, v) :: l) (ih h2)

theorem joinSubkey_congr (key : Str) {s1 s2 : Str}
    (h : stringsToLower s1 = stringsToLower s2) : joinSubkey key s1 = joinSubkey key s2 := by
  simp [joinSubkey, h]

theorem accessorKey_cons (p a : Str) (as : List Str) :
    accessorKey p (a :: as) = accessorKey (joinSubkey p a) as := rfl

theorem accessorKey_congr {ks1 ks2 : List Str}
    (h : ks1.map stringsToLower = ks2.map stringsToLower) :
    ∀ p : Str, accessorKey p ks1 = accessorKey p ks2 := by
  induction ks1 generalizing ks2 with
  | nil =>
      intro p
      have : ks2 = [] := by
        cases ks2 with
        | nil => rfl
        | cons b bs => simp at h
      subst this; rfl
  | cons a as ih =>
      intro p
      cases ks2 with
      | nil => simp at h
      | cons b bs =>
          simp only [List.map_cons, List.cons.injEq] at h
          rw [accessorKey_cons, accessorKey_cons, joinSubkey_congr p h.1]
          exact ih h.2 (joinSubkey p b)

theorem accessorKey_shape (ks : List Str) :
    ∀ p : Str, ∃ u : Str, accessorKey p ks = p ++ u := by
  induction ks with
  | nil =>
      intro p
      refine ⟨[], ?_⟩
      simp [accessorKey]
  | cons a as ih =>
      intro p
      rw [accessorKey_cons]
      by_cases h : stringsToLower a = []
      · simp only [joinSubkey]
        rw [if_pos h]
        exact ih p
      · simp only [joinSubkey]
        rw [if_neg h]
        obtain ⟨u, hu⟩ := ih (p ++ '/' :: stringsToLower a)
        exact ⟨'/' :: stringsToLower a ++ u, by rw [hu, List.append_assoc]⟩

/-! ## Theorems: the periodic token renewer (claim about `backend.go`) -/

/-- C4: the periodic background token-renewal function never propagates
an error: whatever the outcome of loading the config (including the
no-config case), creating the Vault client, and the renew-self call, the
`PeriodicFunc` returns `nil`. -/
theorem periodic_renewer_never_errors (c : ConfigLoad) (cl : ClientResult) (rn : RenewCall) :
    newVaultTokenRenewer c cl rn = none := by
  cases c <;> cases cl <;> cases rn <;> rfl

/-! ## Theorems: lease hooks (`path_soll_ist.go`) -/

/-- C6: every renewal attempt on an issued approved secret's lease
answers with the fixed "cannot be renewed" error response, and the lease
is never extended by it: whatever extended TTL a renewal would install,
the lease keeps its current one. -/
theorem issued_secret_not_renewable (currentTTL extendedTTL : Int) :
    secretApprovedSecretIssueRenew = HookResult.errorResp cannotRenewMsg ∧
    leaseAfterRenew currentTTL extendedTTL secretApprovedSecretIssueRenew = currentTTL :=
  ⟨rfl, rfl⟩

/-- C3: the lease-end revoke hook of an issued approved secret deletes
the Issue record stored under (role name, nonce) and returns success
with no error; when the record is already absent the store is left
unchanged and the hook still succeeds, so a host retry of revocation
never fails. -/
theorem issue_revoke_deletes_and_succeeds {α : Type} (st : Store α) (name nonce : Str)
    (hname : name ≠ []) (hnonce : nonce ≠ []) :
    (secretApprovedSecretIssueRevoke st ⟨name, nonce⟩).2 = HookResult.ok ∧
    accessorGet issuePath (secretApprovedSecretIssueRevoke st ⟨name, nonce⟩).1 [name, nonce] = none ∧
    (accessorGet issuePath st [name, nonce] = none →
      (secretApprovedSecretIssueRevoke st ⟨name, nonce⟩).1 = st) := by
  have hrev : secretApprovedSecretIssueRevoke st ⟨name, nonce⟩ =
      (accessorDelete issuePath st [name, nonce], HookResult.ok) := by
    simp [secretApprovedSecretIssueRevoke, hname, hnonce]
  refine ⟨by rw [hrev], ?_, ?_⟩
  · rw [hrev]
    exact storeGet_storeDelete_self _ _
  · intro habs
    rw [hrev]
    exact storeDelete_absent _ _ habs

/-- Witness for the revoke theorem at a concrete input: role "r", nonce
"n", over the empty store, where the Issue record is absent: the hook
still succeeds and the store is untouched. -/
theorem issue_revoke_deletes_and_succeeds_witness :
    (secretApprovedSecretIssueRevoke ([] : Store Nat) ⟨"r".toList, "n".toList⟩).2 = HookResult.ok ∧
    (secretApprovedSecretIssueRevoke ([] : Store Nat) ⟨"r".toList, "n".toList⟩).1 = [] := by
  have h := issue_revoke_deletes_and_succeeds ([] : Store Nat) "r".toList "n".toList
    (by decide) (by decide)
  exact ⟨h.1, h.2.2 rfl⟩

/-! ## Key disequalities between the backend's namespaces -/

theorem requestKey_ne_roleKey (ks ks' : List Str) :
    accessorKey requestPath ks ≠ accessorKey rolePath ks' := by
  obtain ⟨u, hu⟩ := accessorKey_shape ks requestPath
  obtain ⟨w, hw⟩ := accessorKey_shape ks' rolePath
  rw [hu, hw]
  intro hcontra
  rw [show requestPath = 'r' :: 'e' :: "quest".toList from by decide,
    show rolePath = 'r' :: 'o' :: "le".toList from by decide] at hcontra
  simp only [List.cons_append, List.cons.injEq] at hcontra
  exact absurd hcontra.2.1 (by decide)

theorem issueKey_ne_roleKey (ks ks' : List Str) :
    accessorKey issuePath ks ≠ accessorKey rolePath ks' := by
  obtain ⟨u, hu⟩ := accessorKey_shape ks issuePath
  obtain ⟨w, hw⟩ := accessorKey_shape ks' rolePath
  rw [hu, hw]
  intro hcontra
  rw [show issuePath = 'i' :: "ssue".toList from by decide,
    show rolePath = 'r' :: "ole".toList from by decide] at hcontra
  simp only [List.cons_append, List.cons.injEq] at hcontra
  exact absurd hcontra.1 (by decide)

theorem accessorKey_single_ne (base : Str) {n1 n2 : Str}
    (h : stringsToLower n1 ≠ stringsToLower n2) :
    accessorKey base [n1] ≠ accessorKey base [n2] := by
  have h1 : accessorKey base [n1] = joinSubkey base n1 := rfl
  have h2 : accessorKey base [n2] = joinSubkey base n2 := rfl
  rw [h1, h2]
  simp only [joinSubkey]
  by_cases e1 : stringsToLower n1 = []
  · rw [if_pos e1]
    by_cases e2 : stringsToLower n2 = []
    · exact absurd (e1.trans e2.symm) h
    · rw [if_neg e2]
      intro hc
      have hc' : base ++ ([] : Str) = base ++ '/' :: stringsToLower n2 := by
        rw [List.append_nil]; exact hc
      simpa using List.append_cancel_left hc'
  · rw [if_neg e1]
    by_cases e2 : stringsToLower n2 = []
    · rw [if_pos e2]
      intro hc
      have hc' : base ++ '/' :: stringsToLower n1 = base ++ ([] : Str) := by
        rw [List.append_nil]; exact hc
      simpa using List.append_cancel_left hc'
    · rw [if_neg e2]
      intro hc
      have := List.append_cancel_left hc
      simp only [List.cons.injEq] at this
      exact h this.2

/-- C8: deleting a role removes only that role's entry in the role
namespace: every Request entry, every Issue entry, and every other
role's entry in the shared store is unchanged by the delete. -/
theorem role_delete_frame {α : Type} (st : Store α) (name other rname nonce : Str)
    (hother : stringsToLower other ≠ stringsToLower name) :
    accessorGet rolePath (pathRoleDeleteStore st name) [name] = none ∧
    accessorGet requestPath (pathRoleDeleteStore st name) [rname, nonce] =
      accessorGet requestPath st [rname, nonce] ∧
    accessorGet issuePath (pathRoleDeleteStore st name) [rname, nonce] =
      accessorGet issuePath st [rname, nonce] ∧
    accessorGet rolePath (pathRoleDeleteStore st name) [other] =
      accessorGet rolePath st [other] := by
  refine ⟨storeGet_storeDelete_self _ _, ?_, ?_, ?_⟩
  · exact storeGet_storeDelete_ne _ _ _ (requestKey_ne_roleKey [rname, nonce] [name])
  · exact storeGet_storeDelete_ne _ _ _ (issueKey_ne_roleKey [rname, nonce] [name])
  · exact storeGet_storeDelete_ne _ _ _ (accessorKey_single_ne rolePath hother)

/-- Witness for the role-delete frame theorem on a concrete store with a
role entry "a" and a request entry ("a", "n1"): deleting role "A"
removes it while the request entry and role "B" lookups are unchanged. -/
theorem role_delete_frame_witness :
    accessorGet rolePath (pathRoleDeleteStore sampleStore "A".toList) ["A".toList] = none ∧
    accessorGet requestPath (pathRoleDeleteStore sampleStore "A".toList) ["a".toList, "n1".toList] =
      accessorGet requestPath sampleStore ["a".toList, "n1".toList] ∧
    accessorGet issuePath (pathRoleDeleteStore sampleStore "A".toList) ["a".toList, "n1".toList] =
      accessorGet issuePath sampleStore ["a".toList, "n1".toList] ∧
    accessorGet rolePath (pathRoleDeleteStore sampleStore "A".toList) ["B".toList] =
      accessorGet rolePath sampleStore ["B".toList] :=
  role_delete_frame sampleStore "A".toList "B".toList "a".toList "n1".toList (by decide)

/-! ## Case normalization and prefix listing (the accessor's addressing) -/

theorem childSegment_no_slash (s : Str) (h : ∀ c ∈ s, c ≠ '/') : childSegment s = s := by
  have ht : s.takeWhile (fun c => decide (c ≠ '/')) = s :=
    List.takeWhile_eq_self_iff.mpr (fun c hc => decide_eq_true (h c hc))
  have hd : s.dropWhile (fun c => decide (c ≠ '/')) = [] :=
    List.dropWhile_eq_nil_iff.mpr (fun c hc => decide_eq_true (h c hc))
  unfold childSegment
  rw [ht, hd, if_pos rfl, List.append_nil]

theorem storeList_put_head {α : Type} (pfx rest : Str) (v : α) (st : Store α) :
    storeList pfx (storePut (pfx ++ rest) v st) =
      childSegment rest :: storeList pfx st := by
  simp [storeList, storePut, List.filterMap_cons, List.prefix_append, List.drop_left]

theorem joinSubkey_of_ne_nil (X s : Str) (h : stringsToLower s ≠ []) :
    joinSubkey X s = (X ++ ['/']) ++ stringsToLower s := by
  simp only [joinSubkey]
  rw [if_neg h]
  exact List.append_cons X '/' (stringsToLower s)

/-- C9: every accessor operation lowercases each subkey before joining
it onto the namespace path, so a put under one subkey sequence is
readable (and deletable) under any sequence with the same lowering, and
an entry stored under (role, nonce) is reachable both by the full key
and by prefix listing under the role. -/
theorem accessor_case_insensitive {α : Type} (st : Store α) (v : α) (p role nonce : Str)
    (ks1 ks2 : List Str)
    (hcase : ks1.map stringsToLower = ks2.map stringsToLower)
    (hnonce : stringsToLower nonce ≠ [])
    (hslash : ∀ c ∈ stringsToLower nonce, c ≠ '/') :
    accessorGet p (accessorPut p st v ks1) ks2 = some v ∧
    accessorGet p (accessorDelete p (accessorPut p st v ks1) ks2) ks1 = none ∧
    accessorGet p (accessorPut p st v [role, nonce]) [role, nonce] = some v ∧
    stringsToLower nonce ∈ accessorList p (accessorPut p st v [role, nonce]) [role] := by
  have hkey : accessorKey p ks1 = accessorKey p ks2 := accessorKey_congr hcase p
  refine ⟨?_, ?_, ?_, ?_⟩
  · show storeGet (accessorKey p ks2) (storePut (accessorKey p ks1) v st) = some v
    rw [← hkey]
    exact storeGet_storePut_self _ _ _
  · show storeGet (accessorKey p ks1)
      (storeDelete (accessorKey p ks2) (storePut (accessorKey p ks1) v st)) = none
    rw [← hkey]
    exact storeGet_storeDelete_self _ _
  · exact storeGet_storePut_self _ _ _
  · show stringsToLower nonce ∈
      storeList (joinSubkey p role ++ ['/'])
        (storePut (joinSubkey (joinSubkey p role) nonce) v st)
    rw [joinSubkey_of_ne_nil (joinSubkey p role) nonce hnonce, storeList_put_head,
      childSegment_no_slash _ hslash]
    exact List.mem_cons_self _ _

/-- Witness for the case-insensitive addressing theorem at concrete
inputs: a put under subkey "Ab" read back under "aB", and a put under
("myRole", "N1") listed under the role as "n1". -/
theorem accessor_case_insensitive_witness :
    accessorGet "issue".toList
        (accessorPut "issue".toList ([] : Store Nat) 7 ["Ab".toList]) ["aB".toList] = some 7 ∧
    "n1".toList ∈ accessorList "issue".toList
        (accessorPut "issue".toList ([] : Store Nat) 7 ["myRole".toList, "N1".toList])
        ["myRole".toList] := by
  have h := accessor_case_insensitive ([] : Store Nat) 7 "issue".toList "myRole".toList
    "N1".toList ["Ab".toList] ["aB".toList] (by decide) (by decide) (by decide)
  refine ⟨h.1, ?_⟩
  have he : stringsToLower "N1".toList = "n1".toList := by decide
  exact he ▸ h.2.2.2

/-! ## The approval threshold (request / approve / issue protocol) -/

theorem approveAll_minApprovers (ids : List Str) :
    ∀ req : requestStorageEntry, (approveAll req ids).minApprovers = req.minApprovers := by
  induction ids with
  | nil => intro req; rfl
  | cons a as ih =>
      intro req
      show (approveAll (approveRecord req a) as).minApprovers = _
      rw [ih (approveRecord req a)]
      unfold approveRecord
      split <;> rfl

theorem approveRecord_toFinset (req : requestStorageEntry) (a : Str) :
    (approveRecord req a).approverIds.toFinset = insert a req.approverIds.toFinset := by
  unfold approveRecord
  by_cases h : a ∈ req.approverIds
  · rw [if_pos h]
    exact (Finset.insert_eq_self.mpr (List.mem_toFinset.mpr h)).symm
  · rw [if_neg h]
    exact List.toFinset_cons

theorem approveRecord_nodup (req : requestStorageEntry) (a : Str)
    (h : req.approverIds.Nodup) : (approveRecord req a).approverIds.Nodup := by
  unfold approveRecord
  by_cases hm : a ∈ req.approverIds
  · rw [if_pos hm]; exact h
  · rw [if_neg hm]; exact List.nodup_cons.mpr ⟨hm, h⟩

theorem approveAll_toFinset (ids : List Str) :
    ∀ req : requestStorageEntry,
      (approveAll req ids).approverIds.toFinset =
        req.approverIds.toFinset ∪ ids.toFinset := by
  induction ids with
  | nil => intro req; simp [approveAll]
  | cons a as ih =>
      intro req
      show (approveAll (approveRecord req a) as).approverIds.toFinset = _
      rw [ih (approveRecord req a), approveRecord_toFinset, List.toFinset_cons,
        Finset.insert_union, Finset.union_insert]

theorem approveAll_nodup (ids : List Str) :
    ∀ req : requestStorageEntry, req.approverIds.Nodup →
      (approveAll req ids).approverIds.Nodup := by
  induction ids with
  | nil => intro req h; exact h
  | cons a as ih => intro req h; exact ih _ (approveRecord_nodup req a h)

/-- C1: for a request opened against a role with `min_approvers = k`
(empty initial approver set, threshold snapshotted at open), the issue
operation's approval gate succeeds iff the approval sequence carries at
least k distinct identities — duplicate approvals by one identity do not
count, arrival order does not change the outcome — and a failed gate is
exactly PermissionDenied ("insufficient approvals"). -/
theorem issue_gate_distinct_approvers (req : requestStorageEntry) (k : Int)
    (approvals otherOrder : List Str)
    (hmin : req.minApprovers = k) (hinit : req.approverIds = [])
    (hperm : approvals.Perm otherOrder) :
    (issueApprovalCheck (approveAll req approvals) = IssueGate.ok ↔
      k ≤ (approvals.toFinset.card : Int)) ∧
    issueApprovalCheck (approveAll req approvals) =
      issueApprovalCheck (approveAll req otherOrder) ∧
    (issueApprovalCheck (approveAll req approvals) ≠ IssueGate.ok →
      issueApprovalCheck (approveAll req approvals) =
        IssueGate.permissionDenied insufficientApprovalsMsg) := by
  have hnodupNil : req.approverIds.Nodup := by rw [hinit]; exact List.nodup_nil
  have hnodup : (approveAll req approvals).approverIds.Nodup :=
    approveAll_nodup approvals req hnodupNil
  have hfin : (approveAll req approvals).approverIds.toFinset = approvals.toFinset := by
    rw [approveAll_toFinset approvals req, hinit]
    simp
  have hlen : (approveAll req approvals).approverIds.length = approvals.toFinset.card := by
    rw [← List.toFinset_card_of_nodup hnodup, hfin]
  have hminA : (approveAll req approvals).minApprovers = k := by
    rw [approveAll_minApprovers approvals req, hmin]
  refine ⟨?_, ?_, ?_⟩
  · unfold issueApprovalCheck
    rw [hminA, hlen]
    by_cases hlt : (approvals.toFinset.card : Int) < k
    · rw [if_pos hlt]
      exact ⟨fun h => IssueGate.noConfusion h, fun hle => absurd hlt (not_lt.mpr hle)⟩
    · rw [if_neg hlt]
      exact ⟨fun _ => not_lt.mp hlt, fun _ => rfl⟩
  · have hnodup2 : (approveAll req otherOrder).approverIds.Nodup :=
      approveAll_nodup otherOrder req hnodupNil
    have hfin2 : (approveAll req otherOrder).approverIds.toFinset = otherOrder.toFinset := by
      rw [approveAll_toFinset otherOrder req, hinit]
      simp
    have hcard : otherOrder.toFinset = approvals.toFinset :=
      (List.toFinset_eq_of_perm _ _ hperm).symm
    have hlen2 : (approveAll req otherOrder).approverIds.length =
        (approveAll req approvals).approverIds.length := by
      rw [← List.toFinset_card_of_nodup hnodup2, ← List.toFinset_card_of_nodup hnodup,
        hfin2, hfin, hcard]
    unfold issueApprovalCheck
    rw [approveAll_minApprovers approvals req, approveAll_minApprovers otherOrder req, hlen2]
  · intro hne
    unfold issueApprovalCheck at hne ⊢
    by_cases hc : ((approveAll req approvals).approverIds.length : Int) <
        (approveAll req approvals).minApprovers
    · rw [if_pos hc]
    · rw [if_neg hc] at hne
      exact absurd rfl hne

/-- Witness for the approval-gate theorem at concrete inputs: a request
with `min_approvers = 2`, approvals by bob, carol and bob again (in two
arrival orders). -/
theorem issue_gate_distinct_approvers_witness :
    (issueApprovalCheck (approveAll sampleRequest sampleApprovals) = IssueGate.ok ↔
      2 ≤ (sampleApprovals.toFinset.card : Int)) ∧
    issueApprovalCheck (approveAll sampleRequest sampleApprovals) =
      issueApprovalCheck (approveAll sampleRequest sampleOtherOrder) := by
  have h := issue_gate_distinct_approvers sampleRequest 2 sampleApprovals sampleOtherOrder
    rfl rfl (by decide)
  exact ⟨h.1, h.2.1⟩

/-! ## Role write validation -/

theorem pathRoleCreateUpdateStore_snd (op : Operation) (sysMaxTTL : Int)
    (st : Store roleStorageEntry) (d : RoleFields) :
    (pathRoleCreateUpdateStore op sysMaxTTL st d).2 =
      pathRoleCreateUpdate op sysMaxTTL (accessorGet rolePath st [d.name]) d := by
  simp only [pathRoleCreateUpdateStore]
  cases pathRoleCreateUpdate op sysMaxTTL (accessorGet rolePath st [d.name]) d <;> rfl

theorem pathRoleCreateUpdateStore_fst (op : Operation) (sysMaxTTL : Int)
    (st : Store roleStorageEntry) (d : RoleFields) :
    (pathRoleCreateUpdateStore op sysMaxTTL st d).1 =
      (match pathRoleCreateUpdate op sysMaxTTL (accessorGet rolePath st [d.name]) d with
        | .errorResp _ => st
        | .success _ r => accessorPut rolePath st r [d.name]) := by
  simp only [pathRoleCreateUpdateStore]
  cases pathRoleCreateUpdate op sysMaxTTL (accessorGet rolePath st [d.name]) d <;> rfl

set_option maxHeartbeats 1000000 in
theorem pathRoleCreateUpdate_isErr (op : Operation) (sysMaxTTL : Int)
    (old : Option roleStorageEntry) (d : RoleFields) :
    (pathRoleCreateUpdate op sysMaxTTL old d).isErr = true ↔ roleWriteRejected op old d := by
  simp only [pathRoleCreateUpdate, roleWriteRejected, effSecretPathMethod, effSecretTTL,
    effSecretMaxTTL, effMinApprovers]
  split_ifs <;> simp only [RoleWriteResult.isErr] <;> tauto

/-- C2 (amended): a `roles/:name` write is rejected with an error
response — leaving the store unchanged — exactly when the effective
`min_approvers` is below 1, the effective `secret_path_method` is
neither GET nor POST, `secret_data` is supplied (a non-nil map, even an
empty one) while the method is GET, or the effective `secret_ttl`
exceeds a positive effective `secret_max_ttl`; otherwise the validated
entry is stored under the role's key. -/
theorem role_write_validation (op : Operation) (sysMaxTTL : Int)
    (st : Store roleStorageEntry) (d : RoleFields) :
    ((pathRoleCreateUpdateStore op sysMaxTTL st d).2.isErr = true ↔
      roleWriteRejected op (accessorGet rolePath st [d.name]) d) ∧
    (pathRoleCreateUpdateStore op sysMaxTTL st d).1 =
      (match (pathRoleCreateUpdateStore op sysMaxTTL st d).2 with
        | .errorResp _ => st
        | .success _ r => accessorPut rolePath st r [d.name]) := by
  refine ⟨?_, ?_⟩
  · rw [pathRoleCreateUpdateStore_snd]
    exact pathRoleCreateUpdate_isErr op sysMaxTTL _ d
  · rw [pathRoleCreateUpdateStore_fst, pathRoleCreateUpdateStore_snd]

/-- Counterexample to C2 as stated: creating a role with method GET
(defaulted) and a supplied **empty** `secret_data` map is rejected by
the code (`role.SecretData != nil`), yet none of the claimed rejection
conditions — which require a non-empty `secret_data` — holds. -/
theorem role_write_empty_secret_data_counterexample :
    ¬ (((pathRoleCreateUpdateStore Operation.create 43200 ([] : Store roleStorageEntry)
          emptyMapGetFields).2.isErr = true) ↔
        claimedRoleRejected Operation.create
          (accessorGet rolePath ([] : Store roleStorageEntry) [emptyMapGetFields.name])
          emptyMapGetFields) := by
  intro h
  have hl : (pathRoleCreateUpdateStore Operation.create 43200 ([] : Store roleStorageEntry)
      emptyMapGetFields).2.isErr = true := by decide
  have hc := h.mp hl
  revert hc
  unfold claimedRoleRejected
  decide

/-- C7: on every successful role write, when the effective
`secret_max_ttl` exceeds the mount's maximum lease TTL, the stored value
is exactly the mount ceiling and the response carries the truncation
warning; when it does not, the stored value is the effective value and
no truncation warning is issued. -/
theorem role_max_ttl_clamped (op : Operation) (sysMaxTTL : Int)
    (old : Option roleStorageEntry) (d : RoleFields) :
    match pathRoleCreateUpdate op sysMaxTTL old d with
    | .errorResp _ => True
    | .success w r =>
        if effSecretMaxTTL op old d > sysMaxTTL
        then r.secretMaxTTL = sysMaxTTL ∧ w = true
        else r.secretMaxTTL = effSecretMaxTTL op old d ∧ w = false := by
  simp only [pathRoleCreateUpdate, effSecretMaxTTL]
  split_ifs <;> simp_all

/-- On every successful role write, the stored entry's `secret_data` is
exactly the request's (nil when absent), and each bound/notify field is
the supplied value or, when absent, the previously stored one. -/
theorem pathRoleCreateUpdate_success_fields (op : Operation) (sysMaxTTL : Int)
    (old : Option roleStorageEntry) (d : RoleFields) (w : Bool) (r : roleStorageEntry)
    (h : pathRoleCreateUpdate op sysMaxTTL old d = .success w r) :
    r.secretData = d.secretData ∧
    r.boundRequesterIDs =
      d.boundRequesterIDs.getD (old.getD emptyRoleStorageEntry).boundRequesterIDs ∧
    r.boundRequesterRoles =
      d.boundRequesterRoles.getD (old.getD emptyRoleStorageEntry).boundRequesterRoles ∧
    r.boundApproverIDs =
      d.boundApproverIDs.getD (old.getD emptyRoleStorageEntry).boundApproverIDs ∧
    r.boundApproverRoles =
      d.boundApproverRoles.getD (old.getD emptyRoleStorageEntry).boundApproverRoles ∧
    r.notifySlackChannels =
      d.notifySlackChannels.getD (old.getD emptyRoleStorageEntry).notifySlackChannels := by
  simp only [pathRoleCreateUpdate] at h
  split_ifs at h <;>
    first
      | exact RoleWriteResult.noConfusion h
      | (injection h with hw hr
         subst hr
         exact ⟨rfl, rfl, rfl, rfl, rfl, rfl⟩)

/-- C10: on every update of an existing role, each field independently:
when the request supplies no `secret_data` the stored entry's
`secret_data` is cleared to nil (whatever else is supplied), and when
`bound_requester_ids`, `bound_requester_roles`, `bound_approver_ids`,
`bound_approver_roles` or `notify_slack_channels` is omitted, that
field keeps the previously stored value (whatever else is supplied). -/
theorem role_update_omitted_fields (sysMaxTTL : Int) (oldRole : roleStorageEntry)
    (d : RoleFields) :
    match pathRoleCreateUpdate Operation.update sysMaxTTL (some oldRole) d with
    | .errorResp _ => True
    | .success _ r =>
        (if d.secretData = none then r.secretData = none else True) ∧
        (if d.boundRequesterIDs = none
         then r.boundRequesterIDs = oldRole.boundRequesterIDs else True) ∧
        (if d.boundRequesterRoles = none
         then r.boundRequesterRoles = oldRole.boundRequesterRoles else True) ∧
        (if d.boundApproverIDs = none
         then r.boundApproverIDs = oldRole.boundApproverIDs else True) ∧
        (if d.boundApproverRoles = none
         then r.boundApproverRoles = oldRole.boundApproverRoles else True) ∧
        (if d.notifySlackChannels = none
         then r.notifySlackChannels = oldRole.notifySlackChannels else True) := by
  cases hres : pathRoleCreateUpdate Operation.update sysMaxTTL (some oldRole) d with
  | errorResp m => trivial
  | success w r =>
      obtain ⟨h1, h2, h3, h4, h5, h6⟩ :=
        pathRoleCreateUpdate_success_fields Operation.update sysMaxTTL (some oldRole) d w r hres
      refine ⟨?_, ?_, ?_, ?_, ?_, ?_⟩
      · split
        · next hc => rw [h1, hc]
        · trivial
      · split
        · next hc => rw [h2, hc]; rfl
        · trivial
      · split
        · next hc => rw [h3, hc]; rfl
        · trivial
      · split
        · next hc => rw [h4, hc]; rfl
        · trivial
      · split
        · next hc => rw [h5, hc]; rfl
        · trivial
      · split
        · next hc => rw [h6, hc]; rfl
        · trivial

/-! ## The accessor's lock discipline -/

/-- Counterexample to the claimed discipline: the mutex admits a
schedule of two get-modify-put calls to the same namespace in which call
1's whole get runs between call 0's get and call 0's put — the read
lock is released before the write lock is taken, so the window is open. -/
theorem lock_discipline_counterexample : ¬ claimedLockDiscipline := by
  intro h
  have h1 := (h interleavedSchedule (by decide) (by decide)).1
  have h2 : interleavedBetween 0 interleavedSchedule = true := by decide
  rw [h2] at h1
  exact Bool.noConfusion h1

theorem execLock_split (t1 : List LockEvent) (e : LockEvent) (t2 : List LockEvent) :
    ∀ st : LockState, (execLock st (t1 ++ e :: t2)).isSome = true →
      ∃ st1 st2, execLock st t1 = some st1 ∧ stepLock st1 e = some st2 := by
  induction t1 with
  | nil =>
      intro st h
      simp only [List.nil_append, execLock] at h
      cases hs : stepLock st e with
      | none => rw [hs] at h; simp [execLock] at h
      | some st2 => exact ⟨st, st2, rfl, hs⟩
  | cons a as ih =>
      intro st h
      simp only [List.cons_append, execLock] at h
      cases hs : stepLock st a with
      | none => rw [hs] at h; simp at h
      | some st' =>
          rw [hs] at h
          obtain ⟨st1, st2, h1, h2⟩ := ih st' h
          exact ⟨st1, st2, by simp [execLock, hs, h1], h2⟩

/-- The invariant the mutex maintains: while the write lock is held, no
read lock is held. -/
def lockWriterInv (st : LockState) : Prop := st.writer ≠ none → st.readers = []

theorem stepLock_inv {st st' : LockState} {e : LockEvent}
    (h : stepLock st e = some st') (hinv : lockWriterInv st) : lockWriterInv st' := by
  cases e with
  | acqR c =>
      simp only [stepLock] at h
      cases hw : st.writer with
      | none =>
          rw [hw] at h
          injection h with h
          subst h
          intro hc
          exact absurd rfl hc
      | some c' => rw [hw] at h; exact Option.noConfusion h
  | relR c =>
      simp only [stepLock] at h
      by_cases hm : c ∈ st.readers
      · rw [if_pos hm] at h
        injection h with h
        subst h
        intro hwne
        have hre : st.readers = [] := hinv hwne
        rw [hre] at hm
        exact absurd hm (List.not_mem_nil c)
      · rw [if_neg hm] at h
        exact Option.noConfusion h
  | acqW c =>
      simp only [stepLock] at h
      cases hr : st.readers with
      | nil =>
          cases hw : st.writer with
          | none =>
              rw [hr, hw] at h
              injection h with h
              subst h
              intro _
              rfl
          | some c' => rw [hr, hw] at h; exact Option.noConfusion h
      | cons a as => rw [hr] at h; exact Option.noConfusion h
  | relW c =>
      simp only [stepLock] at h
      by_cases hw : st.writer = some c
      · rw [if_pos hw] at h
        injection h with h
        subst h
        intro hc
        exact absurd rfl hc
      · rw [if_neg hw] at h
        exact Option.noConfusion h

theorem execLock_inv (t : List LockEvent) :
    ∀ st st' : LockState, execLock st t = some st' → lockWriterInv st → lockWriterInv st' := by
  induction t with
  | nil =>
      intro st st' h hi
      injection h with h
      subst h
      exact hi
  | cons e es ih =>
      intro st st' h hi
      simp only [execLock] at h
      cases hs : stepLock st e with
      | none => rw [hs] at h; exact Option.noConfusion h
      | some st1 =>
          rw [hs] at h
          exact ih st1 st' h (stepLock_inv hs hi)

/-- C5 (amended): each individual accessor operation is executed under
mutual exclusion — in every admissible trace, while one call holds the
namespace's write lock, the only event the mutex admits next is by that
same call — but the claimed protection of a whole get-modify-put window
does not hold (the read lock is released before the write lock is
taken, see the counterexample schedule). -/
theorem write_lock_holder_excludes_others (t1 : List LockEvent) (e : LockEvent)
    (t2 : List LockEvent) (st : LockState) (c : Nat)
    (hvalid : validLock (t1 ++ e :: t2) = true)
    (hrun : execLock initLock t1 = some st)
    (hw : st.writer = some c) :
    e.caller = c := by
  have hval' : (execLock initLock (t1 ++ e :: t2)).isSome = true := hvalid
  obtain ⟨st1, st2, h1, h2⟩ := execLock_split t1 e t2 initLock hval'
  have hst : st1 = st := by
    rw [hrun] at h1
    exact (Option.some.inj h1).symm
  subst hst
  have hinv : lockWriterInv st1 := execLock_inv t1 initLock st1 hrun (fun h => absurd rfl h)
  have hreaders : st1.readers = [] := hinv (by rw [hw]; exact fun h => Option.noConfusion h)
  cases e with
  | acqR c' =>
      simp only [stepLock, hw] at h2
      exact Option.noConfusion h2
  | relR c' =>
      simp only [stepLock, hreaders] at h2
      simp at h2
  | acqW c' =>
      simp only [stepLock, hreaders, hw] at h2
      exact Option.noConfusion h2
  | relW c' =>
      simp only [stepLock, hw] at h2
      by_cases hcc : c = c'
      · simp only [LockEvent.caller]
        exact hcc.symm
      · rw [if_neg (fun hh : some c = some c' => hcc (Option.some.inj hh))] at h2
        exact Option.noConfusion h2

/-- Witness for the write-lock exclusion theorem at a concrete trace:
after call 5 acquires the write lock, the only admissible next event is
by call 5 itself. -/
theorem write_lock_holder_excludes_others_witness :
    LockEvent.caller (LockEvent.relW 5) = 5 :=
  write_lock_holder_excludes_others [LockEvent.acqW 5] (LockEvent.relW 5) []
    ⟨[], some 5⟩ 5 (by decide) (by decide) rfl
